import Mathlib

/-!
Verification of the document-store state manager and configuration layer of
the autonomous-cross-domain-integration-catalyst repository.

The embedding follows the two source files:
  - src/config.py: the pydantic Settings class with its field validators.
  - src/firebase_handler.py: the FirebaseHandler singleton (class attributes
    _instance / _initialized and the __new__ / __init__ protocol).
The handler source file is truncated after the first line of __init__; the
operations it wraps (content hashing, content-addressed writes, reads,
deletes, and the tenacity retry policy) are modelled from the specification
text, and each such definition carries a doc comment saying so.
-/

namespace CatalystSpec

/-! ## JSON-compatible field values

The spec's Document Record stores "a mapping of field names to values
(JSON-compatible: strings, numbers, booleans, nested mappings/sequences,
null)". Nested sequences and mappings are represented by the mutually
inductive types below. -/

mutual

/-- A JSON-compatible field value: string, number, boolean, null, nested
sequence or nested mapping. -/
inductive JValue where
  | str : String → JValue
  | num : Int → JValue
  | boolean : Bool → JValue
  | null : JValue
  | arr : JArr → JValue
  | obj : JObj → JValue
  deriving DecidableEq

/-- A nested JSON sequence. -/
inductive JArr where
  | anil : JArr
  | acons : JValue → JArr → JArr
  deriving DecidableEq

/-- A nested JSON mapping. -/
inductive JObj where
  | onil : JObj
  | ocons : String → JValue → JObj → JObj
  deriving DecidableEq

end

/-- A document's field mapping: field names bound to JSON-compatible
values, in insertion order. -/
abbrev FieldMap := List (String × JValue)

/-- First-match lookup of a field name in a field mapping. -/
def lookupKey (k : String) : FieldMap → Option JValue
  | [] => none
  | (k1, v) :: rest => if k1 = k then some v else lookupKey k rest

/-- The field names of a mapping, in order. -/
def keysOf (m : FieldMap) : List String := m.map Prod.fst

/-- A well-formed field mapping binds each field name at most once. -/
abbrev NodupKeys (m : FieldMap) : Prop := (keysOf m).Nodup

@[simp] theorem keysOf_nil : keysOf ([] : FieldMap) = [] := rfl

@[simp] theorem keysOf_cons (p : String × JValue) (m : FieldMap) :
    keysOf (p :: m) = p.1 :: keysOf m := rfl

/-- Key comparison used by the canonical serialization: byte-wise
(character-list) order on the field names. -/
def keyOrder (p q : String × JValue) : Prop := p.1.data ≤ q.1.data

instance : DecidableRel keyOrder := fun p q =>
  inferInstanceAs (Decidable (p.1.data ≤ q.1.data))

instance : IsTotal (String × JValue) keyOrder :=
  ⟨fun p q => le_total p.1.data q.1.data⟩

instance : IsTrans (String × JValue) keyOrder :=
  ⟨fun _ _ _ h1 h2 => le_trans h1 h2⟩

/-- Modelled from the spec: the hashing mechanism is absent from the
truncated src/firebase_handler.py, so the Content Hash is modelled as the
canonical form itself — the field mapping sorted by field name — which is
the "canonical (order-independent) serialization" of section 3, with the
digest step idealized as injective (the spec only assumes collision
resistance "with overwhelming probability"; the model makes collisions
impossible, the ideal the spec appeals to). -/
def contentHash (m : FieldMap) : FieldMap := List.insertionSort keyOrder m

/-- Replace the value bound to field `k` (first occurrence) by `v`. -/
def setKey (k : String) (v : JValue) : FieldMap → FieldMap
  | [] => []
  | (k1, v1) :: rest =>
      if k1 = k then (k1, v) :: rest else (k1, v1) :: setKey k v rest

/-! ### Lemmas about lookup, permutation and sortedness -/

theorem lookupKey_eq_some_mem {k : String} {v : JValue} :
    ∀ {m : FieldMap}, lookupKey k m = some v → k ∈ keysOf m := by
  intro m h
  induction m with
  | nil => simp [lookupKey] at h
  | cons p rest ih =>
      obtain ⟨k1, v1⟩ := p
      by_cases hk : k1 = k
      · subst hk; simp [keysOf]
      · simp only [lookupKey, if_neg hk] at h
        simp [keysOf] at ih ⊢
        right
        simpa [keysOf] using ih h

theorem lookupKey_eq_none_of_not_mem {k : String} :
    ∀ {m : FieldMap}, k ∉ keysOf m → lookupKey k m = none := by
  intro m h
  induction m with
  | nil => rfl
  | cons p rest ih =>
      obtain ⟨k1, v1⟩ := p
      have h1 : k1 ≠ k := fun hk => h (by simp [hk])
      have h2 : k ∉ keysOf rest := fun hk => h (by simp [hk])
      simp only [lookupKey, if_neg h1]
      exact ih h2

theorem nodupKeys_perm {m1 m2 : FieldMap} (h : m1.Perm m2)
    (hd : NodupKeys m1) : NodupKeys m2 :=
  ((h.map Prod.fst).nodup_iff).mp hd

theorem lookupKey_perm {m1 m2 : FieldMap} (h : m1.Perm m2) :
    NodupKeys m1 → ∀ k, lookupKey k m1 = lookupKey k m2 := by
  induction h with
  | nil => intro _ _; rfl
  | cons x h ih =>
      intro hd k
      rw [NodupKeys, keysOf_cons, List.nodup_cons] at hd
      obtain ⟨k1, v1⟩ := x
      by_cases hk : k1 = k
      · simp [lookupKey, hk]
      · simp only [lookupKey, if_neg hk]
        exact ih hd.2 k
  | swap x y l =>
      intro hd k
      rw [NodupKeys, keysOf_cons, keysOf_cons, List.nodup_cons] at hd
      obtain ⟨k1, v1⟩ := x
      obtain ⟨k2, v2⟩ := y
      have hne : k2 ≠ k1 := fun h12 => hd.1 (by simp [h12])
      by_cases h1 : k1 = k
      · by_cases h2 : k2 = k
        · exact absurd (h2.trans h1.symm) hne
        · simp [lookupKey, h1, h2]
      · by_cases h2 : k2 = k
        · simp [lookupKey, h1, h2]
        · simp [lookupKey, h1, h2]
  | trans h1 h2 ih1 ih2 =>
      intro hd k
      exact (ih1 hd k).trans (ih2 (nodupKeys_perm h1 hd) k)

theorem contentHash_perm (m : FieldMap) : (contentHash m).Perm m :=
  List.perm_insertionSort keyOrder m

theorem nodupKeys_contentHash {m : FieldMap} (hd : NodupKeys m) :
    NodupKeys (contentHash m) :=
  nodupKeys_perm (contentHash_perm m).symm hd

theorem lookupKey_contentHash {m : FieldMap} (hd : NodupKeys m) (k : String) :
    lookupKey k (contentHash m) = lookupKey k m :=
  lookupKey_perm (contentHash_perm m) (nodupKeys_contentHash hd) k

/-- Strict key-sortedness: the canonical form of a well-formed mapping has
strictly increasing field names. -/
def StrictSortedKeys (m : FieldMap) : Prop :=
  m.Pairwise (fun p q => p.1.data < q.1.data)

theorem strictSortedKeys_contentHash {m : FieldMap} (hd : NodupKeys m) :
    StrictSortedKeys (contentHash m) := by
  have hs : (contentHash m).Pairwise keyOrder :=
    List.sorted_insertionSort keyOrder m
  have hn : (contentHash m).Pairwise (fun p q : String × JValue => p.1 ≠ q.1) := by
    have := nodupKeys_contentHash hd
    simpa [NodupKeys, keysOf, List.Nodup, List.pairwise_map] using this
  refine (hs.and hn).imp ?_
  rintro p q ⟨hle, hne⟩
  refine lt_of_le_of_ne hle ?_
  intro hdata
  exact hne (String.ext hdata)

theorem head_lt_of_mem_keys {p : String × JValue} {t : FieldMap}
    (hs : StrictSortedKeys (p :: t)) {k : String} (hk : k ∈ keysOf t) :
    p.1.data < k.data := by
  rw [StrictSortedKeys, List.pairwise_cons] at hs
  obtain ⟨q, hq, rfl⟩ : ∃ q ∈ t, q.1 = k := by
    simpa [keysOf] using hk
  exact hs.1 q hq

/-- Two strictly key-sorted mappings with the same lookup function are
syntactically equal: the canonical form is determined by the content. -/
theorem strictSorted_lookup_ext :
    ∀ (l1 l2 : FieldMap), StrictSortedKeys l1 → StrictSortedKeys l2 →
      (∀ k, lookupKey k l1 = lookupKey k l2) → l1 = l2 := by
  intro l1
  induction l1 with
  | nil =>
      intro l2 _ _ hl
      cases l2 with
      | nil => rfl
      | cons q t2 =>
          exfalso
          obtain ⟨k2, v2⟩ := q
          have := (hl k2).symm
          simp [lookupKey] at this
  | cons p t1 ih =>
      intro l2 hs1 hs2 hl
      cases l2 with
      | nil =>
          exfalso
          obtain ⟨k1, v1⟩ := p
          have := hl k1
          simp [lookupKey] at this
      | cons q t2 =>
          obtain ⟨k1, v1⟩ := p
          obtain ⟨k2, v2⟩ := q
          have hk : k1 = k2 := by
            by_contra hne
            have e1 : lookupKey k1 ((k2, v2) :: t2) = some v1 := by
              rw [← hl k1]; simp [lookupKey]
            rw [lookupKey, if_neg (fun h => hne h.symm)] at e1
            have lt1 : k2.data < k1.data :=
              head_lt_of_mem_keys hs2 (lookupKey_eq_some_mem e1)
            have e2 : lookupKey k2 ((k1, v1) :: t1) = some v2 := by
              rw [hl k2]; simp [lookupKey]
            rw [lookupKey, if_neg hne] at e2
            have lt2 : k1.data < k2.data :=
              head_lt_of_mem_keys hs1 (lookupKey_eq_some_mem e2)
            exact lt_asymm lt1 lt2
          subst hk
          have hv : v1 = v2 := by
            have := hl k1
            simpa [lookupKey] using this
          subst hv
          have htl : ∀ k, lookupKey k t1 = lookupKey k t2 := by
            intro k
            by_cases hk1 : k = k1
            · subst hk1
              have h1 : k ∉ keysOf t1 :=
                fun hm => lt_irrefl _ (head_lt_of_mem_keys hs1 hm)
              have h2 : k ∉ keysOf t2 :=
                fun hm => lt_irrefl _ (head_lt_of_mem_keys hs2 hm)
              rw [lookupKey_eq_none_of_not_mem h1,
                lookupKey_eq_none_of_not_mem h2]
            · have := hl k
              rw [lookupKey, lookupKey, if_neg (fun h => hk1 h.symm),
                if_neg (fun h => hk1 h.symm)] at this
              exact this
          have hs1t : StrictSortedKeys t1 := (List.pairwise_cons.mp hs1).2
          have hs2t : StrictSortedKeys t2 := (List.pairwise_cons.mp hs2).2
          rw [ih t2 hs1t hs2t htl]

/-! ### Lemmas about setKey -/

theorem keysOf_setKey (k : String) (v : JValue) :
    ∀ m : FieldMap, keysOf (setKey k v m) = keysOf m := by
  intro m
  induction m with
  | nil => rfl
  | cons p rest ih =>
      obtain ⟨k1, v1⟩ := p
      by_cases hk : k1 = k
      · simp [setKey, hk]
      · simp [setKey, hk, ih]

theorem lookupKey_setKey_self {k : String} (w : JValue) :
    ∀ {m : FieldMap}, k ∈ keysOf m → lookupKey k (setKey k w m) = some w := by
  intro m hmem
  induction m with
  | nil => simp at hmem
  | cons p rest ih =>
      obtain ⟨k1, v1⟩ := p
      by_cases hk : k1 = k
      · simp [setKey, hk, lookupKey]
      · have hmem2 : k ∈ keysOf rest :=
          (List.mem_cons.mp hmem).resolve_left (fun h => hk h.symm)
        simp only [setKey, if_neg hk, lookupKey]
        exact ih hmem2

/-- C1: content-hash determinism and key-order independence.  Two
field mappings with the same keys bound to the same values (in any key
order) have equal content hashes, and rebinding any present field to a
different value changes the content hash. -/
theorem contentHash_deterministic :
    (∀ m1 m2 : FieldMap, NodupKeys m1 → NodupKeys m2 →
        (∀ k, lookupKey k m1 = lookupKey k m2) →
        contentHash m1 = contentHash m2) ∧
    (∀ (m : FieldMap) (k : String) (v w : JValue), NodupKeys m →
        lookupKey k m = some v → w ≠ v →
        contentHash (setKey k w m) ≠ contentHash m) := by
  constructor
  · intro m1 m2 hd1 hd2 hl
    refine strictSorted_lookup_ext _ _
      (strictSortedKeys_contentHash hd1) (strictSortedKeys_contentHash hd2) ?_
    intro k
    rw [lookupKey_contentHash hd1 k, lookupKey_contentHash hd2 k]
    exact hl k
  · intro m k v w hd hv hw heq
    have hd2 : NodupKeys (setKey k w m) := by
      rw [NodupKeys, keysOf_setKey]; exact hd
    have hmem : k ∈ keysOf m := lookupKey_eq_some_mem hv
    have hchain : some w = some v := by
      calc some w = lookupKey k (setKey k w m) :=
            (lookupKey_setKey_self w hmem).symm
        _ = lookupKey k (contentHash (setKey k w m)) :=
            (lookupKey_contentHash hd2 k).symm
        _ = lookupKey k (contentHash m) := by rw [heq]
        _ = lookupKey k m := lookupKey_contentHash hd k
        _ = some v := hv
    exact hw (Option.some.inj hchain)

/-- C1 witness: the spec's concrete example — the mappings written
as a-then-b and b-then-a derive the same identifier, and changing the
value of field a changes it. -/
theorem contentHash_deterministic_witness :
    contentHash [("a", JValue.num 1), ("b", JValue.num 2)] =
      contentHash [("b", JValue.num 2), ("a", JValue.num 1)] ∧
    contentHash (setKey "a" (JValue.num 3)
        [("a", JValue.num 1), ("b", JValue.num 2)]) ≠
      contentHash [("a", JValue.num 1), ("b", JValue.num 2)] := by
  constructor
  · refine contentHash_deterministic.1 _ _ (by decide) (by decide) ?_
    intro k
    by_cases h1 : "a" = k
    · subst h1; decide
    · by_cases h2 : "b" = k
      · subst h2; decide
      · simp only [lookupKey, if_neg h1, if_neg h2]
  · exact contentHash_deterministic.2 _ "a" (JValue.num 1) (JValue.num 3)
      (by decide) (by decide) (by decide)

/-! ## The remote document store boundary

Modelled from the spec (§6): collection-scoped CRUD over
identifier-to-field-mapping documents.  The store operations below model
the boundary the truncated handler calls into. -/

/-- Modelled from the spec (§7): the store-level error taxonomy, the
central decision point of the retry policy — transient errors are retried,
permanent errors are not. -/
inductive StoreErr where
  | transient : String → StoreErr
  | permanent : String → StoreErr
  deriving DecidableEq

/-- A content-addressed identifier: in this model the digest is the
canonical form of the field mapping (see contentHash). -/
abbrev ContentId := FieldMap

/-- A stored Document Record (spec §3): the field mapping, the content
hash stored alongside it, and the last-modified timestamp assigned by the
manager at write time. -/
structure DocRecord where
  fields : FieldMap
  storedHash : FieldMap
  lastModified : Nat
  deriving DecidableEq

/-- The remote store's state: bindings from (collection, identifier) to
document records. -/
abbrev Store := List ((String × ContentId) × DocRecord)

/-- First-match lookup of a (collection, identifier) pair. -/
def storeLookup : Store → String → ContentId → Option DocRecord
  | [], _, _ => none
  | (key, r) :: rest, coll, docId =>
      if key = (coll, docId) then some r else storeLookup rest coll docId

/-- Bind (collection, identifier) to a record, replacing any previous
binding. -/
def storeSet (s : Store) (coll : String) (docId : ContentId)
    (r : DocRecord) : Store :=
  ((coll, docId), r) :: s.filter (fun e => decide (e.1 ≠ (coll, docId)))

/-- Remove the binding of a (collection, identifier) pair, if any. -/
def storeRemove (s : Store) (coll : String) (docId : ContentId) : Store :=
  s.filter (fun e => decide (e.1 ≠ (coll, docId)))

theorem storeLookup_storeSet_self (s : Store) (coll : String)
    (docId : ContentId) (r : DocRecord) :
    storeLookup (storeSet s coll docId r) coll docId = some r := by
  simp [storeSet, storeLookup]

/-- Result of a content-addressed write: the derived identifier and
whether a physical write was performed. -/
structure WriteResult where
  docId : ContentId
  didWrite : Bool
  deriving DecidableEq

/-- Modelled from the spec (§4.2, content-addressed mode): compute the
Content Hash over the canonical form of the field mapping and use it as
the identifier; if a record with that identifier exists and its stored
content hash matches, the write is a no-op and the existing identifier is
returned; otherwise write the record with a freshly assigned timestamp. -/
def contentWrite (s : Store) (coll : String) (fields : FieldMap)
    (now : Nat) : WriteResult × Store :=
  match storeLookup s coll (contentHash fields) with
  | some r =>
      if r.storedHash = contentHash fields then
        (⟨contentHash fields, false⟩, s)
      else
        (⟨contentHash fields, true⟩,
          storeSet s coll (contentHash fields)
            ⟨fields, contentHash fields, now⟩)
  | none =>
      (⟨contentHash fields, true⟩,
        storeSet s coll (contentHash fields)
          ⟨fields, contentHash fields, now⟩)

theorem contentWrite_docId (s : Store) (coll : String) (f : FieldMap)
    (t : Nat) : (contentWrite s coll f t).1.docId = contentHash f := by
  rcases hl : storeLookup s coll (contentHash f) with _ | r
  · simp [contentWrite, hl]
  · by_cases hh : r.storedHash = contentHash f <;> simp [contentWrite, hl, hh]

theorem contentWrite_lookup_after (s : Store) (coll : String) (f : FieldMap)
    (t : Nat) :
    ∃ r : DocRecord,
      storeLookup (contentWrite s coll f t).2 coll (contentHash f) = some r ∧
      r.storedHash = contentHash f := by
  rcases hl : storeLookup s coll (contentHash f) with _ | r
  · exact ⟨⟨f, contentHash f, t⟩,
      by simp [contentWrite, hl, storeLookup_storeSet_self], rfl⟩
  · by_cases hh : r.storedHash = contentHash f
    · exact ⟨r, by simp [contentWrite, hl, hh], hh⟩
    · exact ⟨⟨f, contentHash f, t⟩,
        by simp [contentWrite, hl, hh, storeLookup_storeSet_self], rfl⟩

/-- C2: content-addressed write idempotence.  The second identical
content-addressed write finds the record stored by the first, returns the
pre-existing identifier, performs no write, and leaves the store — in
particular the record's last-modified timestamp — unchanged; from an
empty store two identical writes leave exactly one stored record. -/
theorem contentWrite_idempotent (s : Store) (coll : String) (f : FieldMap)
    (t1 t2 : Nat) :
    (contentWrite (contentWrite s coll f t1).2 coll f t2).1.docId =
        (contentWrite s coll f t1).1.docId ∧
    (contentWrite (contentWrite s coll f t1).2 coll f t2).1.didWrite =
        false ∧
    (contentWrite (contentWrite s coll f t1).2 coll f t2).2 =
        (contentWrite s coll f t1).2 ∧
    (contentWrite (contentWrite ([] : Store) coll f t1).2 coll f t2).2.length
        = 1 := by
  have key : ∀ s' : Store,
      contentWrite (contentWrite s' coll f t1).2 coll f t2 =
        (⟨contentHash f, false⟩, (contentWrite s' coll f t1).2) := by
    intro s'
    obtain ⟨r, hr, hh⟩ := contentWrite_lookup_after s' coll f t1
    generalize (contentWrite s' coll f t1).2 = s2 at hr ⊢
    simp [contentWrite, hr, hh]
  refine ⟨?_, ?_, ?_, ?_⟩
  · rw [key s, contentWrite_docId]
  · rw [key s]
  · rw [key s]
  · rw [key []]
    simp [contentWrite, storeLookup, storeSet]

/-! ## Read and delete -/

/-- Outcome of a manager read: the record, the explicit not-found success
variant, or an error — not-found is never conflated with an error. -/
inductive ReadOutcome where
  | found : DocRecord → ReadOutcome
  | notFound : ReadOutcome
  | failed : StoreErr → ReadOutcome
  deriving DecidableEq

/-- Modelled from the spec (§4.2 Read, §7): reading returns the Document
Record if present, or the explicit not-found result; absence is a success
variant, never an error. -/
def readDoc (s : Store) (coll : String) (docId : ContentId) : ReadOutcome :=
  match storeLookup s coll docId with
  | some r => ReadOutcome.found r
  | none => ReadOutcome.notFound

/-- Outcome of a manager delete. -/
inductive DeleteOutcome where
  | ok : DeleteOutcome
  | failed : StoreErr → DeleteOutcome
  deriving DecidableEq

/-- Modelled from the spec (§4.2 Delete): deleting removes the binding if
present and succeeds whether or not the record existed. -/
def deleteDoc (s : Store) (coll : String) (docId : ContentId) :
    DeleteOutcome × Store :=
  (DeleteOutcome.ok, storeRemove s coll docId)

/-- C8: absence is never an error.  Reading a never-written identifier
yields the explicit not-found success variant (never an error value), and
delete always succeeds — on a non-existent identifier included — and is
idempotent. -/
theorem absence_not_error (s : Store) (coll : String) (docId : ContentId) :
    (storeLookup s coll docId = none →
      readDoc s coll docId = ReadOutcome.notFound) ∧
    (deleteDoc s coll docId).1 = DeleteOutcome.ok ∧
    (deleteDoc (deleteDoc s coll docId).2 coll docId).2 =
      (deleteDoc s coll docId).2 := by
  refine ⟨fun h => by simp [readDoc, h], rfl, ?_⟩
  simp [deleteDoc, storeRemove, List.filter_filter]

/-- C8 witness: on the empty store, reading an identifier that was never
written is not-found and deleting it succeeds. -/
theorem absence_not_error_witness :
    readDoc ([] : Store) "c" [] = ReadOutcome.notFound ∧
    (deleteDoc ([] : Store) "c" []).1 = DeleteOutcome.ok :=
  ⟨(absence_not_error [] "c" []).1 rfl, (absence_not_error [] "c" []).2.1⟩

/-! ## Retry policy

The source imports tenacity's retry, stop_after_attempt, wait_exponential
and retry_if_exception_type (src/firebase_handler.py line 16), but the
truncation removes every decorated operation, so the policy is modelled
from the spec (§4.2 Retry/backoff policy, §7, §8). -/

/-- Modelled from the spec: the shared retry/backoff parameters —
maximum attempt count, base delay, growth factor, maximum delay
ceiling. -/
structure RetryPolicy where
  maxAttempts : Nat
  baseDelay : Nat
  growth : Nat
  maxDelay : Nat
  deriving DecidableEq

/-- Modelled from the spec: the exponential backoff delay slept after the
(n+1)-th attempt — base delay times growth to the n, capped by the
maximum delay ceiling. -/
def backoffDelay (p : RetryPolicy) (n : Nat) : Nat :=
  min (p.baseDelay * p.growth ^ n) p.maxDelay

/-- Overall outcome of a retried operation (spec §7): success, immediate
abort with the original permanent error, or the distinct terminal signal
for a spent retry budget. -/
inductive OpOutcome (α : Type) where
  | ok : α → OpOutcome α
  | permanentErr : String → OpOutcome α
  | retryExhausted : OpOutcome α
  deriving DecidableEq

/-- Observable trace of one retried operation: its outcome, how many
attempts were made, and the backoff delays slept between attempts. -/
structure RetryTrace (α : Type) where
  outcome : OpOutcome α
  attempts : Nat
  delays : List Nat
  deriving DecidableEq

/-- Modelled from the spec: run attempts i, i+1, ... with the given number
of attempts remaining.  A success returns immediately; a permanent error
aborts with exactly this one attempt, surfacing the original error; a
transient error consumes retry budget, sleeping the backoff delay before
the next attempt, and surfaces the distinct retry-exhausted signal when
the budget is spent. -/
def retryGo {α : Type} (p : RetryPolicy) (op : Nat → Except StoreErr α) :
    Nat → Nat → RetryTrace α
  | _, 0 => ⟨OpOutcome.retryExhausted, 0, []⟩
  | i, remaining + 1 =>
      match op i with
      | Except.ok a => ⟨OpOutcome.ok a, 1, []⟩
      | Except.error (StoreErr.permanent m) => ⟨OpOutcome.permanentErr m, 1, []⟩
      | Except.error (StoreErr.transient _) =>
          if remaining = 0 then ⟨OpOutcome.retryExhausted, 1, []⟩
          else
            let r := retryGo p op (i + 1) remaining
            ⟨r.outcome, r.attempts + 1, backoffDelay p i :: r.delays⟩

/-- Modelled from the spec: run an operation under the retry policy,
starting at attempt 0 with the full attempt budget. -/
def retryRun {α : Type} (p : RetryPolicy) (op : Nat → Except StoreErr α) :
    RetryTrace α :=
  retryGo p op 0 p.maxAttempts

theorem retryGo_ok_step {α : Type} (p : RetryPolicy)
    (op : Nat → Except StoreErr α) (i r : Nat) (a : α)
    (hop : op i = Except.ok a) :
    retryGo p op i (r + 1) = ⟨OpOutcome.ok a, 1, []⟩ := by
  rw [retryGo, hop]

theorem retryGo_permanent_step {α : Type} (p : RetryPolicy)
    (op : Nat → Except StoreErr α) (i r : Nat) (m : String)
    (hop : op i = Except.error (StoreErr.permanent m)) :
    retryGo p op i (r + 1) = ⟨OpOutcome.permanentErr m, 1, []⟩ := by
  rw [retryGo, hop]

theorem retryGo_transient_step {α : Type} (p : RetryPolicy)
    (op : Nat → Except StoreErr α) (i r : Nat) (m : String)
    (hop : op i = Except.error (StoreErr.transient m)) :
    retryGo p op i (r + 2) =
      ⟨(retryGo p op (i + 1) (r + 1)).outcome,
       (retryGo p op (i + 1) (r + 1)).attempts + 1,
       backoffDelay p i :: (retryGo p op (i + 1) (r + 1)).delays⟩ := by
  rw [retryGo, hop]
  simp

/-- A store that fails with a transient error on the first two attempts
and succeeds on the third (the spec's §8 scenario). -/
def twoTransientThenOk (v : Nat) : Nat → Except StoreErr Nat :=
  fun i => if i < 2 then Except.error (StoreErr.transient "timeout")
           else Except.ok v

/-- C3: retry classification.  Under any policy with at least three
attempts and growth factor at least one: the two-transient-failures store
yields overall success on the third attempt, the slept delays are
non-decreasing and never exceed the maximum-delay ceiling, and a
permanent error causes exactly one attempt with the original error
surfaced. -/
theorem retry_classification (p : RetryPolicy) (v : Nat)
    (hmax : 3 ≤ p.maxAttempts) (hgrow : 1 ≤ p.growth) :
    (retryRun p (twoTransientThenOk v)).outcome = OpOutcome.ok v ∧
    (retryRun p (twoTransientThenOk v)).attempts = 3 ∧
    (retryRun p (twoTransientThenOk v)).delays.Chain' (· ≤ ·) ∧
    (∀ d ∈ (retryRun p (twoTransientThenOk v)).delays, d ≤ p.maxDelay) ∧
    (∀ m, (retryRun p (fun _ => Except.error (StoreErr.permanent m)) :
        RetryTrace Nat).attempts = 1 ∧
      (retryRun p (fun _ => Except.error (StoreErr.permanent m)) :
        RetryTrace Nat).outcome = OpOutcome.permanentErr m) := by
  obtain ⟨k, hk⟩ : ∃ k, p.maxAttempts = k + 3 :=
    ⟨p.maxAttempts - 3, by omega⟩
  obtain ⟨k2, hk2⟩ : ∃ k2, p.maxAttempts = k2 + 1 :=
    ⟨p.maxAttempts - 1, by omega⟩
  have hrun : retryRun p (twoTransientThenOk v) =
      ⟨OpOutcome.ok v, 3, [backoffDelay p 0, backoffDelay p 1]⟩ := by
    rw [retryRun, hk,
      show k + 3 = (k + 1) + 2 from rfl,
      retryGo_transient_step p _ 0 (k + 1) "timeout" rfl,
      show (k + 1) + 1 = k + 2 from rfl,
      retryGo_transient_step p _ 1 k "timeout" rfl,
      retryGo_ok_step p _ 2 k v rfl]
  have hdelay : backoffDelay p 0 ≤ backoffDelay p 1 := by
    refine min_le_min ?_ le_rfl
    have : p.growth ^ 0 ≤ p.growth ^ 1 :=
      Nat.pow_le_pow_right (le_trans (by norm_num) hgrow) (by norm_num)
    exact Nat.mul_le_mul_left _ this
  refine ⟨by rw [hrun], by rw [hrun], ?_, ?_, ?_⟩
  · rw [hrun]
    simpa using hdelay
  · rw [hrun]
    intro d hd
    simp at hd
    rcases hd with h | h <;> rw [h] <;> exact min_le_right _ _
  · intro m
    rw [retryRun, hk2,
      retryGo_permanent_step p _ 0 k2 m rfl]
    exact ⟨rfl, rfl⟩

/-- C3 witness: the concrete policy with three attempts, base delay 1,
growth 2, ceiling 10, on the two-transient-failures store. -/
theorem retry_classification_witness :
    (retryRun ⟨3, 1, 2, 10⟩ (twoTransientThenOk 42)).outcome =
        OpOutcome.ok 42 ∧
    (retryRun ⟨3, 1, 2, 10⟩ (twoTransientThenOk 42)).attempts = 3 ∧
    (retryRun ⟨3, 1, 2, 10⟩ (twoTransientThenOk 42)).delays.Chain' (· ≤ ·) ∧
    (∀ d ∈ (retryRun ⟨3, 1, 2, 10⟩ (twoTransientThenOk 42)).delays,
        d ≤ (10 : Nat)) ∧
    (∀ m, (retryRun ⟨3, 1, 2, 10⟩
        (fun _ => Except.error (StoreErr.permanent m)) :
          RetryTrace Nat).attempts = 1 ∧
      (retryRun ⟨3, 1, 2, 10⟩
        (fun _ => Except.error (StoreErr.permanent m)) :
          RetryTrace Nat).outcome = OpOutcome.permanentErr m) :=
  retry_classification ⟨3, 1, 2, 10⟩ 42 (by decide) (by decide)

theorem retryGo_all_transient (p : RetryPolicy) (m : String) :
    ∀ rem i, (retryGo p (fun _ => Except.error (StoreErr.transient m))
        i (rem + 1) : RetryTrace Nat).outcome = OpOutcome.retryExhausted ∧
      (retryGo p (fun _ => Except.error (StoreErr.transient m))
        i (rem + 1) : RetryTrace Nat).attempts = rem + 1 := by
  intro rem
  induction rem with
  | zero => intro i; constructor <;> rfl
  | succ n ih =>
      intro i
      rw [retryGo]
      simp only [Nat.succ_ne_zero, if_false]
      exact ⟨(ih (i + 1)).1, by rw [(ih (i + 1)).2]⟩

/-- C4: retry exhaustion.  Against a store that always fails with a
transient error, exactly the configured maximum number of attempts is
made, after which the distinct retry-exhausted terminal signal is
surfaced — distinguishable by construction from any permanent error. -/
theorem retry_exhaustion (p : RetryPolicy) (m : String)
    (hmax : 1 ≤ p.maxAttempts) :
    (retryRun p (fun _ => Except.error (StoreErr.transient m)) :
        RetryTrace Nat).outcome = OpOutcome.retryExhausted ∧
    (retryRun p (fun _ => Except.error (StoreErr.transient m)) :
        RetryTrace Nat).attempts = p.maxAttempts ∧
    (∀ msg, (OpOutcome.retryExhausted : OpOutcome Nat) ≠
        OpOutcome.permanentErr msg) := by
  obtain ⟨rem, hrem⟩ : ∃ rem, p.maxAttempts = rem + 1 :=
    ⟨p.maxAttempts - 1, by omega⟩
  refine ⟨?_, ?_, fun msg h => by cases h⟩
  · rw [retryRun, hrem]
    exact (retryGo_all_transient p m rem 0).1
  · rw [retryRun, hrem, (retryGo_all_transient p m rem 0).2]

/-- C4 witness: the three-attempt policy on an always-transient store
makes exactly three attempts and surfaces retry exhaustion. -/
theorem retry_exhaustion_witness :
    (retryRun ⟨3, 1, 2, 10⟩
        (fun _ => Except.error (StoreErr.transient "t")) :
      RetryTrace Nat).outcome = OpOutcome.retryExhausted ∧
    (retryRun ⟨3, 1, 2, 10⟩
        (fun _ => Except.error (StoreErr.transient "t")) :
      RetryTrace Nat).attempts = 3 :=
  ⟨(retry_exhaustion ⟨3, 1, 2, 10⟩ "t" (by decide)).1,
    (retry_exhaustion ⟨3, 1, 2, 10⟩ "t" (by decide)).2.1⟩

/-! ## Configuration (src/config.py)

The pydantic Settings class, embedded field by field.  Pydantic validates
fields in declaration order: log_level (custom validator, lines 84-90)
comes before max_workers and max_concurrent_requests (lines 41-48, plain
int fields with no constraints) and before the two thresholds (lines
64-75, constrained to the range 0 to 1).  The knowledge_base_path
validator only creates a directory on disk and is outside this embedding.
Python float thresholds are embedded as rationals; str.upper is embedded
as String.toUpper. -/

/-- Embedding of the Python str.upper call on src/config.py line 88:
uppercase every character (faithful on the ASCII alphabet the valid
levels are drawn from). -/
def pyUpper (s : String) : String := String.mk (s.data.map Char.toUpper)

/-- The valid_levels list of Settings.validate_log_level
(src/config.py line 87). -/
def valid_levels : List String :=
  ["DEBUG", "INFO", "WARNING", "ERROR", "CRITICAL"]

/-- The error message raised by Settings.validate_log_level
(src/config.py line 89). -/
def logLevelMsg : String :=
  "Log level must be one of DEBUG, INFO, WARNING, ERROR, CRITICAL"

/-- Settings.validate_log_level (src/config.py lines 84-90): accept a
string whose uppercase form is a valid level, normalizing to uppercase;
reject anything else with a descriptive error. -/
def validate_log_level (v : String) : Except String String :=
  if pyUpper v ∈ valid_levels then Except.ok (pyUpper v)
  else Except.error logLevelMsg

/-- The ge=0.0 le=1.0 bounds on similarity_threshold and
confidence_threshold (src/config.py lines 64-75). -/
def thresholdValid (q : ℚ) : Bool := decide (0 ≤ q ∧ q ≤ 1)

/-- Raw inputs to Settings construction, restricted to the validated
fields of src/config.py. -/
structure SettingsInput where
  log_level : String
  max_workers : Int
  max_concurrent_requests : Int
  similarity_threshold : ℚ
  confidence_threshold : ℚ
  deriving DecidableEq

/-- A constructed (validated) Settings object. -/
structure Settings where
  log_level : String
  max_workers : Int
  max_concurrent_requests : Int
  similarity_threshold : ℚ
  confidence_threshold : ℚ
  deriving DecidableEq

/-- Settings construction (src/config.py lines 11-97): run the field
validations in declaration order and fail on the first violation.
max_workers and max_concurrent_requests are declared as plain int fields
with no range constraint, so no check is performed on them. -/
def mkSettings (inp : SettingsInput) : Except String Settings :=
  match validate_log_level inp.log_level with
  | Except.error e => Except.error e
  | Except.ok lvl =>
      if thresholdValid inp.similarity_threshold = false then
        Except.error "similarity_threshold must be in the range 0 to 1"
      else if thresholdValid inp.confidence_threshold = false then
        Except.error "confidence_threshold must be in the range 0 to 1"
      else
        Except.ok ⟨lvl, inp.max_workers, inp.max_concurrent_requests,
          inp.similarity_threshold, inp.confidence_threshold⟩

/-- C7: log-level validation.  For inputs whose uppercase form is a
valid level, construction succeeds and stores the uppercased value; for
every other string, construction fails with the descriptive log-level
error. -/
theorem log_level_validation (inp : SettingsInput)
    (hs : thresholdValid inp.similarity_threshold = true)
    (hc : thresholdValid inp.confidence_threshold = true) :
    (pyUpper inp.log_level ∈ valid_levels →
      mkSettings inp = Except.ok
        ⟨pyUpper inp.log_level, inp.max_workers,
          inp.max_concurrent_requests, inp.similarity_threshold,
          inp.confidence_threshold⟩) ∧
    (pyUpper inp.log_level ∉ valid_levels →
      mkSettings inp = Except.error logLevelMsg) := by
  constructor
  · intro hmem
    rw [mkSettings, validate_log_level, if_pos hmem]
    simp [hs, hc]
  · intro hmem
    rw [mkSettings, validate_log_level, if_neg hmem]

/-- C7 witness: the lowercase string info is accepted and normalized to
INFO; the string bogus is rejected with the descriptive error. -/
theorem log_level_validation_witness :
    mkSettings ⟨"info", 4, 10, 0, 1⟩ =
      Except.ok ⟨"INFO", 4, 10, 0, 1⟩ ∧
    mkSettings ⟨"bogus", 4, 10, 0, 1⟩ = Except.error logLevelMsg :=
  ⟨(log_level_validation ⟨"info", 4, 10, 0, 1⟩ (by decide) (by decide)).1
      (by decide),
    (log_level_validation ⟨"bogus", 4, 10, 0, 1⟩ (by decide) (by decide)).2
      (by decide)⟩

/-- C9 counterexample: constructing the Settings with max_workers equal
to zero succeeds — construction does not fail on non-positive worker
counts, contradicting the claim that it must. -/
theorem max_workers_zero_accepted :
    mkSettings ⟨"INFO", 0, -5, 0, 1⟩ =
      Except.ok ⟨"INFO", 0, -5, 0, 1⟩ := rfl

/-- C9 amended: the worker and concurrency limits are declared as plain
integer fields with no positivity constraint; construction succeeds for
every integer value of max_workers and max_concurrent_requests, zero and
negative values included, whenever the remaining fields are valid. -/
theorem worker_limits_unvalidated (w c : Int) (lvl : String) (st ct : ℚ)
    (hl : pyUpper lvl ∈ valid_levels)
    (hs : thresholdValid st = true) (hc : thresholdValid ct = true) :
    mkSettings ⟨lvl, w, c, st, ct⟩ =
      Except.ok ⟨pyUpper lvl, w, c, st, ct⟩ :=
  (log_level_validation ⟨lvl, w, c, st, ct⟩ hs hc).1 hl

/-- C9 amended witness: negative and zero limits are accepted. -/
theorem worker_limits_unvalidated_witness :
    mkSettings ⟨"debug", -3, 0, 0, 1⟩ =
      Except.ok ⟨"DEBUG", -3, 0, 0, 1⟩ :=
  worker_limits_unvalidated (-3) 0 "debug" 0 1 (by decide) (by decide)
    (by decide)

/-! ## The FirebaseHandler singleton (src/firebase_handler.py lines 21-37)

Class-level state: _instance (initially None) and _initialized (initially
False).  FirebaseHandler.__new__ allocates a new object and assigns it to
_instance only when _instance is None, then returns _instance; __init__
runs its body only when _initialized is not set.  The body of __init__ is
truncated in the source; its one-time setup is modelled from the spec
(§4.2 Identity & lifecycle: "a boolean flag set exactly once, guarding the
one-time setup path against re-entry").  Object identities are modelled as
allocation numbers. -/

/-- The class-level state of FirebaseHandler: the _instance attribute
(an allocation id, or none while still None), the _initialized flag, a
counter of completed one-time setups, and the next allocation id. -/
structure HandlerClass where
  inst : Option Nat
  initialized : Bool
  setupCount : Nat
  nextId : Nat
  deriving DecidableEq

/-- Process start: _instance is None, _initialized is False
(src/firebase_handler.py lines 27-28). -/
def initialClass : HandlerClass := ⟨none, false, 0, 0⟩

/-- FirebaseHandler.__new__ (src/firebase_handler.py lines 30-33),
sequential semantics: allocate and assign _instance only when it is None;
return _instance. -/
def handlerNew (s : HandlerClass) : Nat × HandlerClass :=
  match s.inst with
  | some i => (i, s)
  | none =>
      (s.nextId, { s with inst := some s.nextId, nextId := s.nextId + 1 })

/-- FirebaseHandler.__init__ (src/firebase_handler.py lines 35-37): the
guard `if not self._initialized` is in the source; the guarded body is
truncated and modelled from the spec — it runs the one-time setup and
sets the flag.  The raised flag models the body raising partway through,
before the flag was set: the exception propagates and neither the setup
count nor _initialized is updated.  Returns whether the call raised. -/
def handlerInit (raised : Bool) (s : HandlerClass) : Bool × HandlerClass :=
  if s.initialized then (false, s)
  else if raised then (true, s)
  else (false, { s with setupCount := s.setupCount + 1, initialized := true })

/-- One construction call FirebaseHandler(): __new__ then __init__.
Returns the object identity __new__ produced, whether __init__ raised,
and the class state after the call. -/
def constructHandler (raised : Bool) (s : HandlerClass) :
    Nat × Bool × HandlerClass :=
  let n := handlerNew s
  let r := handlerInit raised n.2
  (n.1, r.1, r.2)

/-- Run a sequence of construction calls (one flag per call saying
whether that call's init body raises), collecting the returned object
identities. -/
def runConstructions : List Bool → HandlerClass → List Nat × HandlerClass
  | [], s => ([], s)
  | b :: bs, s =>
      let c := constructHandler b s
      let r := runConstructions bs c.2.2
      (c.1 :: r.1, r.2)

theorem handlerInit_inst (b : Bool) (s : HandlerClass) :
    (handlerInit b s).2.inst = s.inst := by
  rw [handlerInit]
  split_ifs <;> rfl

theorem runConstructions_steady (bs : List Bool) :
    ∀ (s : HandlerClass) (i : Nat), s.inst = some i → s.initialized = true →
      runConstructions bs s = (List.replicate bs.length i, s) := by
  induction bs with
  | nil => intro s i h1 h2; rfl
  | cons b bs ih =>
      intro s i h1 h2
      have hc : constructHandler b s = (i, false, s) := by
        simp [constructHandler, handlerNew, handlerInit, h1, h2]
      simp [runConstructions, hc, ih s i h1 h2, List.replicate_succ]

/-- C5: idempotent manager construction.  Any number of consecutive
construction calls (none of whose init bodies raise) all return the very
first allocated object, and the one-time setup runs exactly once across
all of them. -/
theorem construct_idempotent (n : Nat) :
    (runConstructions (List.replicate (n + 1) false) initialClass).1 =
        List.replicate (n + 1) 0 ∧
    (runConstructions (List.replicate (n + 1) false) initialClass).2.setupCount
        = 1 ∧
    (runConstructions (List.replicate (n + 1) false) initialClass).2.inst =
        some 0 := by
  have hc : constructHandler false initialClass =
      (0, false, ⟨some 0, true, 1, 1⟩) := rfl
  have hrest := runConstructions_steady (List.replicate n false)
    ⟨some 0, true, 1, 1⟩ 0 rfl rfl
  rw [List.replicate_succ]
  refine ⟨?_, ?_, ?_⟩ <;>
    simp [runConstructions, hc, hrest, List.replicate_succ]

theorem runConstructions_inst (bs : List Bool) :
    ∀ (s : HandlerClass) (i : Nat), s.inst = some i →
      (runConstructions bs s).1 = List.replicate bs.length i ∧
      (runConstructions bs s).2.inst = some i := by
  induction bs with
  | nil => intro s i h; exact ⟨rfl, h⟩
  | cons b bs ih =>
      intro s i h
      have hn : handlerNew s = (i, s) := by simp [handlerNew, h]
      have hc : constructHandler b s =
          (i, (handlerInit b s).1, (handlerInit b s).2) := by
        simp [constructHandler, hn]
      have hinst : (handlerInit b s).2.inst = some i := by
        rw [handlerInit_inst]; exact h
      obtain ⟨ih1, ih2⟩ := ih (handlerInit b s).2 i hinst
      exact ⟨by simp [runConstructions, hc, ih1, List.replicate_succ],
        by simp [runConstructions, hc, ih2]⟩

/-- C10: the singleton allocation happens at most once and is never
rolled back.  For every sequence of construction calls in which any of
the init bodies may raise partway through — the first call included —
every call returns the object allocated by the first call, and the class
_instance attribute remains that object forever: __new__ allocates only
when _instance is None and nothing resets it. -/
theorem instance_never_reset (bs : List Bool) (b : Bool) :
    (runConstructions (b :: bs) initialClass).1 =
        List.replicate (bs.length + 1) 0 ∧
    (runConstructions (b :: bs) initialClass).2.inst = some 0 := by
  have hstep : ∃ s2 : HandlerClass,
      constructHandler b initialClass = (0, b, s2) ∧ s2.inst = some 0 := by
    cases b
    · exact ⟨⟨some 0, true, 1, 1⟩, rfl, rfl⟩
    · exact ⟨⟨some 0, false, 0, 1⟩, rfl, rfl⟩
  obtain ⟨s2, hc, hi⟩ := hstep
  obtain ⟨h1, h2⟩ := runConstructions_inst bs s2 0 hi
  exact ⟨by simp [runConstructions, hc, h1, List.replicate_succ],
    by simp [runConstructions, hc, h2]⟩

/-! ## Concurrent first access to __new__

The spec (§5) demands that one-time setup execute exactly once under
concurrent first access, "via a mutual-exclusion mechanism (not a
check-then-act race)".  The source's __new__ (lines 30-33) is exactly an
unguarded check-then-act: no lock of any kind appears in the file.  The
model below makes each of the two statements of __new__ an atomic step
and interleaves two threads. -/

/-- A thread executing __new__: its program counter (0 = about to
evaluate the check, 1 = check done, 2 = finished) and what the check
saw. -/
structure ThreadSt where
  pc : Nat
  sawNone : Bool
  deriving DecidableEq

/-- Shared state for the two-thread race on __new__. -/
structure RaceSt where
  inst : Option Nat
  nextId : Nat
  allocCount : Nat
  t1 : ThreadSt
  t2 : ThreadSt
  deriving DecidableEq

def getThread (g : RaceSt) (who : Bool) : ThreadSt :=
  if who then g.t1 else g.t2

def setThread (g : RaceSt) (who : Bool) (t : ThreadSt) : RaceSt :=
  if who then { g with t1 := t } else { g with t2 := t }

/-- One atomic step of a thread running __new__ (src/firebase_handler.py
lines 30-33).  Step pc 0 evaluates the check `cls._instance is None`;
step pc 1, when the check saw None, allocates a fresh object and assigns
it to cls._instance — the unguarded act of the check-then-act. -/
def raceStep (g : RaceSt) (who : Bool) : RaceSt :=
  match (getThread g who).pc with
  | 0 => setThread g who ⟨1, g.inst.isNone⟩
  | 1 =>
      if (getThread g who).sawNone then
        setThread
          { g with
              inst := some g.nextId
              nextId := g.nextId + 1
              allocCount := g.allocCount + 1 }
          who ⟨2, (getThread g who).sawNone⟩
      else setThread g who ⟨2, (getThread g who).sawNone⟩
  | _ => g

/-- Run an interleaving: each entry says which thread takes the next
atomic step. -/
def runSchedule (sched : List Bool) (g : RaceSt) : RaceSt :=
  sched.foldl raceStep g

/-- Both threads at the start of __new__, _instance still None. -/
def raceInit : RaceSt := ⟨none, 0, 0, ⟨0, false⟩, ⟨0, false⟩⟩

/-- C6 refutation: under the interleaving check-check-act-act both
threads of the unguarded __new__ pass the None check and both allocate —
the one-time allocation runs twice and the second assignment overwrites
the first thread's object, while the purely sequential interleaving
allocates once.  No mutual-exclusion mechanism exists in the source to
prevent the first interleaving. -/
theorem new_race_double_alloc :
    (runSchedule [true, false, true, false] raceInit).allocCount = 2 ∧
    (runSchedule [true, false, true, false] raceInit).inst = some 1 ∧
    (runSchedule [true, true, false, false] raceInit).allocCount = 1 := by
  exact ⟨rfl, rfl, rfl⟩

end CatalystSpec
